import Mathlib

/-!
Shallow embedding of the `bcurve` core (price grid, geometric and logistic
allocation curves, DLMM fee schedule, and the geometric verifier) over the
real numbers, together with theorems settling the frozen claims about it.

Floating-point `f64` values are idealized as real numbers.  Machine-integer
behaviour that the claims quantify over is kept: the Rust source calls
`f64::powi` with an `i64` index cast `as i32`, so exponents are reduced into
the `i32` range by wrapping truncation (`wrap32` below).
-/

open scoped Classical

noncomputable section

namespace BCurve

/-- Truncation of an `i64` value to `i32` as performed by `x as i32` in
Rust (twos complement): reduce modulo `2^32 = 4294967296` into `[-2^31, 2^31) = [-2147483648, 2147483648)`. -/
def wrap32 (i : ℤ) : ℤ := (i + 2147483648) % 4294967296 - 2147483648

/-- The `Grid` (curves.rs): DLMM price grid parameters. -/
structure Grid where
  p0 : ℝ
  bin_step_bps : ℝ

/-- The `Grid::q`: growth factor `q = 1 + bin_step_bps / 10_000`. -/
def Grid.q (g : Grid) : ℝ := 1 + g.bin_step_bps / 10000

/-- The `Grid::price_of_bin`: `self.p0 * self.q().powi(i as i32)`.  The Rust
source casts the `i64` bin index to `i32`, hence the `wrap32`. -/
def Grid.price_of_bin (g : Grid) (i : ℤ) : ℝ := g.p0 * g.q ^ wrap32 i

/-- The `Geometric` (curves.rs): geometric bonding curve on a DLMM grid. -/
structure Geometric where
  grid : Grid
  theta : ℝ
  r0_quote : ℝ

/-- The `Geometric::r`: decay factor `r = q^(θ-1)` (real-exponent `powf`). -/
def Geometric.r (c : Geometric) : ℝ := c.grid.q ^ (c.theta - 1)

/-- The `Geometric::g`: growth factor `g = q^θ`. -/
def Geometric.g (c : Geometric) : ℝ := c.grid.q ^ c.theta

/-- The `Geometric::delta_x0`: initial allocation `ΔX_0 = R_0 / P_0`. -/
def Geometric.delta_x0 (c : Geometric) : ℝ := c.r0_quote / c.grid.p0

/-- The `Geometric::s_n_closed`: closed-form cumulative supply; branches on
`|r - 1| < 1e-12`, and the generic branch uses `r.powi(n as i32)`. -/
def Geometric.s_n_closed (c : Geometric) (n : ℤ) : ℝ :=
  if |c.r - 1| < 1e-12 then c.delta_x0 * (n : ℝ)
  else c.delta_x0 * (1 - c.r ^ wrap32 n) / (1 - c.r)

/-- The `Geometric::solve_r0_from_supply`: inverse solve for `R_0` from a target
total supply over `n` bins, with the same branch on `|r - 1| < 1e-12`. -/
def Geometric.solve_r0_from_supply (c : Geometric) (target_s : ℝ) (n : ℤ) : ℝ :=
  if |c.r - 1| < 1e-12 then (target_s / (n : ℝ)) * c.grid.p0
  else
    let denom := 1 - c.r ^ wrap32 n
    target_s * (1 - c.r) / denom * c.grid.p0

/-- The `<Geometric as Curve>::price_of_bin`: delegates to the grid. -/
def Geometric.price_of_bin (c : Geometric) (i : ℤ) : ℝ := c.grid.price_of_bin i

/-- The `<Geometric as Curve>::delta_x_of_bin`: `ΔX_i = ΔX_0 * r^(i as i32)`. -/
def Geometric.delta_x_of_bin (c : Geometric) (i : ℤ) : ℝ := c.delta_x0 * c.r ^ wrap32 i

/-- The `LogisticS` (curves.rs): logistic price-vs-supply target discretized on
the grid. -/
structure LogisticS where
  grid : Grid
  p_min : ℝ
  p_max : ℝ
  k : ℝ
  s_mid : ℝ
  bins : ℤ

/-- Rust `f64::clamp(lo, hi)` as the if-chain it performs (assuming the
debug assertion `lo ≤ hi` passes): `if x < lo { lo } else if x > hi { hi } else { x }`. -/
def rustClamp (x lo hi : ℝ) : ℝ := if x < lo then lo else if x > hi then hi else x

/-- The `LogisticS::s_of_p`: inverse-logistic supply at price `p`, after
clamping `p` into `[p_min + eps, p_max - eps]` with
`eps = (p_max - p_min) * 1e-12`. -/
def LogisticS.s_of_p (c : LogisticS) (p : ℝ) : ℝ :=
  let eps := (c.p_max - c.p_min) * 1e-12
  let pc := rustClamp p (c.p_min + eps) (c.p_max - eps)
  let num := c.p_max - pc
  let den := pc - c.p_min
  c.s_mid - Real.log (num / den) / c.k

/-- The `LogisticS::s_i`: supply at the price of bin `i`. -/
def LogisticS.s_i (c : LogisticS) (i : ℤ) : ℝ := c.s_of_p (c.grid.price_of_bin i)

/-- The `<LogisticS as Curve>::price_of_bin`: delegates to the grid. -/
def LogisticS.price_of_bin (c : LogisticS) (i : ℤ) : ℝ := c.grid.price_of_bin i

/-- The `<LogisticS as Curve>::delta_x_of_bin`: `0` for `i + 1 ≥ bins`, else
`(s_{i+1} - s_i).max(0.0)`. -/
def LogisticS.delta_x_of_bin (c : LogisticS) (i : ℤ) : ℝ :=
  if i + 1 ≥ c.bins then 0
  else max (c.s_i (i + 1) - c.s_i i) 0

/-- The `DlmmFeeParams` (dlmm.rs): DLMM fee schedule in decimal space. -/
structure DlmmFeeParams where
  base_factor : ℝ
  bin_step_bps : ℝ
  variable_fee_control : ℝ
  max_fee_rate : ℝ

/-- The `DlmmFeeParams::s_dec`: bin step converted from bps to decimal. -/
def DlmmFeeParams.s_dec (f : DlmmFeeParams) : ℝ := f.bin_step_bps / 10000

/-- The `DlmmFeeParams::base_fee_rate`: `f_b = B * s`. -/
def DlmmFeeParams.base_fee_rate (f : DlmmFeeParams) : ℝ := f.base_factor * f.s_dec

/-- The `DlmmFeeParams::variable_fee_rate`: `f_v = A * (va * s)^2`. -/
def DlmmFeeParams.variable_fee_rate (f : DlmmFeeParams) (va : ℝ) : ℝ :=
  f.variable_fee_control * (va * f.s_dec) ^ (2 : ℕ)

/-- The `DlmmFeeParams::total_fee_rate`: `(f_b + f_v).min(max_fee_rate.max(0.0))`. -/
def DlmmFeeParams.total_fee_rate (f : DlmmFeeParams) (va : ℝ) : ℝ :=
  min (f.base_fee_rate + f.variable_fee_rate va) (max f.max_fee_rate 0)

/-- The `Report` (verifier.rs): result of `verify_geometric`. -/
structure Report where
  bins : ℤ
  supply_sum : ℝ
  supply_closed : Option ℝ
  rel_err_supply : Option ℝ
  monotone_ok : Bool

/-- Mutable state of the `verify_geometric` loop.  `prev_px = none` stands
for the initial `f64::NEG_INFINITY` (no real price compares `≤` to it). -/
structure LoopState where
  s_sum : ℝ
  comp : ℝ
  prev_px : Option ℝ
  monotone_ok : Bool

/-- The `p <= prev_px` comparison of the loop, with `none` as `-∞`. -/
def plePrev (p : ℝ) : Option ℝ → Prop
  | none => False
  | some pp => p ≤ pp

/-- One iteration of the `verify_geometric` loop at bin `i`. -/
def vgStep (c : Geometric) (st : LoopState) (i : ℤ) : Except String LoopState :=
  let dx := c.delta_x_of_bin i
  if dx < 0 then Except.error ("negative allocation")
  else
    let t := st.s_sum + dx
    let comp := st.comp + (if |st.s_sum| ≥ |dx| then (st.s_sum - t) + dx else (dx - t) + st.s_sum)
    let p := c.price_of_bin i
    let mono := if plePrev p st.prev_px then false else st.monotone_ok
    Except.ok { s_sum := t, comp := comp, prev_px := some p, monotone_ok := mono }

/-- Running the loop over a list of bin indices, stopping at the first error. -/
def vgLoop (c : Geometric) : List ℤ → LoopState → Except String LoopState
  | [], st => Except.ok st
  | i :: is, st =>
    match vgStep c st i with
    | Except.error e => Except.error e
    | Except.ok st1 => vgLoop c is st1

/-- Initial loop state: `s_sum = 0`, `comp = 0`, `prev_px = NEG_INFINITY`,
`monotone_ok = true`. -/
def vgInit : LoopState := { s_sum := 0, comp := 0, prev_px := none, monotone_ok := true }

/-- The index list `0, 1, …, bins-1` of `for i in 0..bins` (empty when `bins ≤ 0`). -/
def idxList (n : ℕ) : List ℤ := (List.range n).map (fun k : ℕ => (k : ℤ))

/-- The `verify_geometric` (verifier.rs). -/
def verify_geometric (c : Geometric) (bins : ℤ) : Except String Report :=
  match vgLoop c (idxList bins.toNat) vgInit with
  | Except.error e => Except.error e
  | Except.ok st =>
    let s_sum := st.s_sum + st.comp
    let s_closed := c.s_n_closed bins
    let rel := if |s_closed| > 0 then |s_sum - s_closed| / |s_closed| else 0
    Except.ok { bins := bins, supply_sum := s_sum, supply_closed := some s_closed,
                rel_err_supply := some rel, monotone_ok := st.monotone_ok }

/-- The `compute_bins_from_end_price` (main.rs):
`((end_price / p0).ln() / q.ln()).ceil() as i64`, then `.max(1)`. -/
def compute_bins_from_end_price (grid : Grid) (end_price : ℝ) : ℤ :=
  max ⌈Real.log (end_price / grid.p0) / Real.log grid.q⌉ 1

/-- Extract the reported relative supply error from a verifier result
(`0` when absent). -/
def relErrOf : Except String Report → ℝ
  | Except.ok rep => rep.rel_err_supply.getD 0
  | Except.error _ => 0

/-! ### Basic facts about the embedding -/

/-- The `wrap32` is the identity on the `i32` range. -/
lemma wrap32_eq_self {i : ℤ} (h1 : -2147483648 ≤ i) (h2 : i < 2147483648) :
    wrap32 i = i := by
  unfold wrap32
  omega

/-- Appending index lists composes the loop. -/
lemma vgLoop_append (c : Geometric) (xs ys : List ℤ) (st : LoopState) :
    vgLoop c (xs ++ ys) st =
      match vgLoop c xs st with
      | Except.error e => Except.error e
      | Except.ok st1 => vgLoop c ys st1 := by
  induction xs generalizing st with
  | nil => simp [vgLoop]
  | cons i is ih =>
    simp only [List.cons_append, vgLoop]
    cases vgStep c st i with
    | error e => rfl
    | ok st1 => exact ih st1

/-- The `idxList` grows by one index at the right end. -/
lemma idxList_succ (n : ℕ) : idxList (n + 1) = idxList n ++ [(n : ℤ)] := by
  simp [idxList, List.range_succ]

/-- The loop fails exactly when some listed bin has a negative allocation. -/
lemma vgLoop_error_iff (c : Geometric) (is : List ℤ) : ∀ st : LoopState,
    (∃ e, vgLoop c is st = Except.error e) ↔ ∃ i ∈ is, c.delta_x_of_bin i < 0 := by
  induction is with
  | nil =>
    intro st
    simp [vgLoop]
  | cons i is ih =>
    intro st
    by_cases h : c.delta_x_of_bin i < 0
    · simp only [vgLoop, vgStep, if_pos h]
      exact ⟨fun _ => ⟨i, List.mem_cons_self i is, h⟩, fun _ => ⟨"negative allocation", rfl⟩⟩
    · simp only [vgLoop, vgStep, if_neg h]
      rw [ih]
      constructor
      · rintro ⟨j, hj, hlt⟩
        exact ⟨j, List.mem_cons_of_mem i hj, hlt⟩
      · rintro ⟨j, hj, hlt⟩
        rcases List.mem_cons.mp hj with rfl | hj
        · exact absurd hlt h
        · exact ⟨j, hj, hlt⟩

/-- Strict per-bin price increase over the first `n` checked bins. -/
def monoUpTo (c : Geometric) (n : ℕ) : Prop :=
  ∀ k : ℕ, k + 1 < n → c.price_of_bin (k : ℤ) < c.price_of_bin ((k : ℤ) + 1)

/-- Full characterization of a successful run of the verifier loop from the
initial state: the compensation term vanishes (real arithmetic is exact), the
primary total is the plain sum, the monotone flag records pairwise strict
price increase, and `prev_px` holds the last checked price. -/
lemma vgLoop_ok_char (c : Geometric) (n : ℕ) : ∀ st1 : LoopState,
    vgLoop c (idxList n) vgInit = Except.ok st1 →
    st1.comp = 0 ∧
    st1.s_sum = ∑ k ∈ Finset.range n, c.delta_x_of_bin (k : ℤ) ∧
    (st1.monotone_ok = true ↔ monoUpTo c n) ∧
    st1.prev_px = (if n = 0 then none else some (c.price_of_bin ((n : ℤ) - 1))) := by
  induction n with
  | zero =>
    intro st1 h
    simp only [idxList, List.range_zero, List.map_nil, vgLoop] at h
    injection h with h
    subst h
    refine ⟨rfl, by simp [vgInit], ?_, by simp [vgInit]⟩
    have h0 : monoUpTo c 0 := fun k hk => absurd hk (by omega)
    simp [vgInit, h0]
  | succ n ih =>
    intro st1 h
    rw [idxList_succ, vgLoop_append] at h
    cases hm : vgLoop c (idxList n) vgInit with
    | error e =>
      rw [hm] at h
      simp at h
    | ok stm =>
      rw [hm] at h
      obtain ⟨hcomp, hsum, hmono, hprev⟩ := ih stm hm
      by_cases hdx : c.delta_x_of_bin (n : ℤ) < 0
      · simp only [vgLoop, vgStep, if_pos hdx] at h
        exact Except.noConfusion h
      · simp only [vgLoop, vgStep, if_neg hdx] at h
        injection h with h
        subst h
        refine ⟨?_, ?_, ?_, ?_⟩
        · show stm.comp + _ = 0
          rw [hcomp]
          split <;> ring
        · show stm.s_sum + _ = _
          rw [hsum, Finset.sum_range_succ]
        · show (if plePrev (c.price_of_bin (n : ℤ)) stm.prev_px then false
              else stm.monotone_ok) = true ↔ monoUpTo c (n + 1)
          rcases Nat.eq_zero_or_pos n with rfl | hn
          · rw [if_pos rfl] at hprev
            rw [hprev]
            simp only [plePrev, if_false]
            rw [hmono]
            exact iff_of_true (fun k hk => absurd hk (by omega))
              (fun k hk => absurd hk (by omega))
          · rw [if_neg (by omega)] at hprev
            rw [hprev]
            simp only [plePrev]
            by_cases hle : c.price_of_bin (n : ℤ) ≤ c.price_of_bin ((n : ℤ) - 1)
            · rw [if_pos hle]
              constructor
              · intro hfalse
                exact absurd hfalse (by simp)
              · intro hall
                exfalso
                have hk := hall (n - 1) (by omega)
                have hc1 : ((n - 1 : ℕ) : ℤ) = (n : ℤ) - 1 := by omega
                rw [hc1] at hk
                have hc2 : (n : ℤ) - 1 + 1 = (n : ℤ) := by ring
                rw [hc2] at hk
                exact absurd hle (not_le.mpr hk)
            · rw [if_neg hle]
              rw [hmono]
              constructor
              · intro hmon k hk
                rcases Nat.lt_or_ge (k + 1) n with hk2 | hk2
                · exact hmon k hk2
                · have hkn : k = n - 1 := by omega
                  subst hkn
                  have hc1 : ((n - 1 : ℕ) : ℤ) = (n : ℤ) - 1 := by omega
                  rw [hc1]
                  have hc2 : (n : ℤ) - 1 + 1 = (n : ℤ) := by ring
                  rw [hc2]
                  exact lt_of_not_le hle
              · intro hmon k hk
                exact hmon k (by omega)
        · show some (c.price_of_bin (n : ℤ)) = _
          rw [if_neg (by omega)]
          have hc : ((n + 1 : ℕ) : ℤ) - 1 = (n : ℤ) := by omega
          rw [hc]

/-- A successful `verify_geometric` call reports the plain per-bin sum, the
closed form, the relative error computed from them, and the monotone verdict. -/
lemma verify_geometric_ok_char (c : Geometric) (bins : ℤ) (rep : Report)
    (h : verify_geometric c bins = Except.ok rep) :
    rep.bins = bins ∧
    rep.supply_sum = ∑ k ∈ Finset.range bins.toNat, c.delta_x_of_bin (k : ℤ) ∧
    rep.supply_closed = some (c.s_n_closed bins) ∧
    rep.rel_err_supply = some (if |c.s_n_closed bins| > 0 then
        |rep.supply_sum - c.s_n_closed bins| / |c.s_n_closed bins| else 0) ∧
    (rep.monotone_ok = true ↔ monoUpTo c bins.toNat) := by
  unfold verify_geometric at h
  cases hm : vgLoop c (idxList bins.toNat) vgInit with
  | error e =>
    rw [hm] at h
    simp at h
  | ok st =>
    rw [hm] at h
    obtain ⟨hcomp, hsum, hmono, _⟩ := vgLoop_ok_char c bins.toNat st hm
    injection h with h
    subst h
    refine ⟨rfl, ?_, rfl, rfl, hmono⟩
    show st.s_sum + st.comp = _
    rw [hcomp, hsum, add_zero]

/-- The `verify_geometric` fails exactly when some bin in `[0, bins)` has a
negative allocation. -/
lemma verify_geometric_error_iff (c : Geometric) (bins : ℤ) :
    (∃ e, verify_geometric c bins = Except.error e) ↔
      ∃ i : ℤ, 0 ≤ i ∧ i < bins ∧ c.delta_x_of_bin i < 0 := by
  have hmem : ∀ i : ℤ, i ∈ idxList bins.toNat ↔ 0 ≤ i ∧ i < bins := by
    intro i
    unfold idxList
    rw [List.mem_map]
    constructor
    · rintro ⟨k, hk, rfl⟩
      rw [List.mem_range] at hk
      constructor
      · show (0 : ℤ) ≤ (k : ℤ)
        omega
      · show (k : ℤ) < bins
        omega
    · rintro ⟨h0, h1⟩
      refine ⟨i.toNat, ?_, ?_⟩
      · rw [List.mem_range]
        omega
      · show (i.toNat : ℤ) = i
        omega
  unfold verify_geometric
  cases hm : vgLoop c (idxList bins.toNat) vgInit with
  | error e =>
    have := (vgLoop_error_iff c (idxList bins.toNat) vgInit).mp ⟨e, hm⟩
    obtain ⟨i, hi, hlt⟩ := this
    exact iff_of_true ⟨e, rfl⟩ ⟨i, ((hmem i).mp hi).1, ((hmem i).mp hi).2, hlt⟩
  | ok st =>
    constructor
    · rintro ⟨e, he⟩
      exact absurd he (by simp)
    · rintro ⟨i, h0, h1, hlt⟩
      exfalso
      have : ∃ e, vgLoop c (idxList bins.toNat) vgInit = Except.error e :=
        (vgLoop_error_iff c (idxList bins.toNat) vgInit).mpr
          ⟨i, (hmem i).mpr ⟨h0, h1⟩, hlt⟩
      obtain ⟨e, he⟩ := this
      rw [hm] at he
      exact absurd he (by simp)

/-- A positive base `≠ 1` has no integer power equal to `1` except at exponent `0`. -/
lemma zpow_ne_one_of_pos {a : ℝ} (ha : 0 < a) (hne : a ≠ 1) {n : ℤ} (hn : n ≠ 0) :
    a ^ n ≠ 1 := by
  intro h
  have hlog : (n : ℝ) * Real.log a = 0 := by
    rw [← Real.log_zpow, h, Real.log_one]
  have hla : Real.log a = 0 := by
    rcases mul_eq_zero.mp hlog with h1 | h1
    · exact absurd (by exact_mod_cast h1 : n = 0) hn
    · exact h1
  rcases Real.log_eq_zero.mp hla with h1 | h1 | h1
  · exact absurd h1 (ne_of_gt ha)
  · exact hne h1
  · linarith

/-- The `1 < a ^ n` for a base `> 1` and a positive integer exponent. -/
lemma one_lt_zpow_real {a : ℝ} (ha : 1 < a) {n : ℤ} (hn : 0 < n) : 1 < a ^ n := by
  have h : a ^ n = a ^ n.toNat := by
    rw [← zpow_natCast]
    congr 1
    omega
  rw [h]
  exact one_lt_pow₀ ha (by omega)

/-! ### Concrete instances used by witnesses and counterexamples -/

/-- A well-behaved geometric curve: `p0 = 1`, `bin_step_bps = 30000` (so
`q = 4`), `θ = 1/2` (so `r = 4^(-1/2) = 1/2`), `r0_quote = 1` (so `ΔX_0 = 1`). -/
def geomQ4 : Geometric :=
  { grid := { p0 := 1, bin_step_bps := 30000 }, theta := 1/2, r0_quote := 1 }

lemma geomQ4_q : geomQ4.grid.q = 4 := by
  unfold geomQ4 Grid.q
  norm_num

lemma geomQ4_r : geomQ4.r = 1/2 := by
  unfold Geometric.r
  rw [geomQ4_q]
  show (4:ℝ) ^ ((1:ℝ)/2 - 1) = 1/2
  have h1 : ((1:ℝ)/2 - 1) = -(1/2) := by norm_num
  rw [h1, Real.rpow_neg (by norm_num : (0:ℝ) ≤ 4)]
  have h2 : (4:ℝ) ^ ((1:ℝ)/2) = 2 := by
    rw [show ((1:ℝ)/2) = (2:ℝ)⁻¹ by norm_num]
    rw [Real.rpow_inv_eq] <;> norm_num
  rw [h2]
  norm_num

lemma geomQ4_delta_x0 : geomQ4.delta_x0 = 1 := by
  unfold Geometric.delta_x0 geomQ4
  norm_num

/-- The ratio `1/2` of `geomQ4` is not within `1e-12` of `1`. -/
lemma half_not_near_one : ¬ |(1:ℝ)/2 - 1| < 1e-12 := by
  rw [abs_sub_comm, abs_of_pos (by norm_num : (0:ℝ) < 1 - 1/2)]
  norm_num

/-- A geometric curve whose decay ratio lies within `1e-12` of `1` without
being `1`: `p0 = 1`, `bin_step_bps = 1e-8` (so `q = 1 + 1e-12`), `θ = 1/2`
(so `r = (1+1e-12)^(-1/2)`), `r0_quote = 1`. -/
def geomNear1 : Geometric :=
  { grid := { p0 := 1, bin_step_bps := 1e-8 }, theta := 1/2, r0_quote := 1 }

lemma geomNear1_q : geomNear1.grid.q = 1 + 1e-12 := by
  unfold geomNear1 Grid.q
  norm_num

lemma geomNear1_r_eq : geomNear1.r = (Real.sqrt (1 + 1e-12))⁻¹ := by
  unfold Geometric.r
  rw [geomNear1_q]
  show (1 + 1e-12 : ℝ) ^ ((1:ℝ)/2 - 1) = _
  have h1 : ((1:ℝ)/2 - 1) = -(1/2) := by norm_num
  rw [h1, Real.rpow_neg (by norm_num : (0:ℝ) ≤ 1 + 1e-12)]
  rw [← Real.sqrt_eq_rpow]

lemma sqrtNear1_sq : Real.sqrt (1 + 1e-12) ^ (2:ℕ) = 1 + 1e-12 :=
  Real.sq_sqrt (by norm_num)

lemma sqrtNear1_gt1 : 1 < Real.sqrt (1 + 1e-12) := by
  have h0 := Real.sqrt_nonneg (1 + 1e-12 : ℝ)
  nlinarith [sqrtNear1_sq]

lemma geomNear1_r_pos : 0 < geomNear1.r := by
  rw [geomNear1_r_eq]
  exact inv_pos.mpr (lt_trans one_pos sqrtNear1_gt1)

lemma geomNear1_r_lt1 : geomNear1.r < 1 := by
  rw [geomNear1_r_eq]
  rw [inv_lt_one_iff₀]
  exact Or.inr sqrtNear1_gt1

lemma geomNear1_r_gt : 1 - 1e-12 < geomNear1.r := by
  rw [geomNear1_r_eq]
  have hs0 : (0:ℝ) < Real.sqrt (1 + 1e-12) := lt_trans one_pos sqrtNear1_gt1
  rw [inv_eq_one_div, lt_div_iff₀ hs0]
  nlinarith [sqrtNear1_sq, sqrtNear1_gt1]

lemma geomNear1_r_branch : |geomNear1.r - 1| < 1e-12 := by
  rw [abs_sub_lt_iff]
  constructor
  · linarith [geomNear1_r_lt1]
  · linarith [geomNear1_r_gt]

lemma geomNear1_delta_x0 : geomNear1.delta_x0 = 1 := by
  unfold Geometric.delta_x0 geomNear1
  norm_num

/-- Tail decay of the near-`1` ratio: after five million bins the per-bin
allocation has dropped by at least `1e-6`. -/
lemma geomNear1_r_pow_le : geomNear1.r ^ (5000000:ℕ) ≤ 1 - 1e-6 := by
  have hs0 : (0:ℝ) ≤ Real.sqrt (1 + 1e-12) := Real.sqrt_nonneg _
  have h : (1:ℝ) + 5000000 * 1e-12 ≤ (Real.sqrt (1 + 1e-12) ^ (5000000:ℕ)) ^ (2:ℕ) := by
    have hsq : (Real.sqrt (1 + 1e-12) ^ (5000000:ℕ)) ^ (2:ℕ) =
        ((1:ℝ) + 1e-12) ^ (5000000:ℕ) := by
      rw [← pow_mul, mul_comm, pow_mul, sqrtNear1_sq]
    rw [hsq]
    have hb := one_add_mul_le_pow (show (-2:ℝ) ≤ 1e-12 by norm_num) 5000000
    rw [show ((5000000:ℕ):ℝ) = 5000000 by norm_num] at hb
    exact hb
  have hsm : (1 + 2e-6 : ℝ) ≤ Real.sqrt (1 + 1e-12) ^ (5000000:ℕ) := by
    by_contra hc
    push_neg at hc
    have ht0 : (0:ℝ) ≤ Real.sqrt (1 + 1e-12) ^ (5000000:ℕ) := pow_nonneg hs0 _
    nlinarith [h, hc, ht0]
  rw [geomNear1_r_eq, inv_pow]
  have h1 : (Real.sqrt (1 + 1e-12) ^ (5000000:ℕ))⁻¹ ≤ (1 + 2e-6 : ℝ)⁻¹ :=
    inv_le_inv_of_le (by norm_num) hsm
  calc (Real.sqrt (1 + 1e-12) ^ (5000000:ℕ))⁻¹ ≤ (1 + 2e-6 : ℝ)⁻¹ := h1
    _ ≤ 1 - 1e-6 := by norm_num

/-! ### Claim theorems -/

/-- Claim C4. For every fee parameter set with `max_fee_rate ∈ [0,1]` and every
volatility accumulator value `va`, `total_fee_rate va` never exceeds
`max_fee_rate`, and it equals the minimum of
`base_fee_rate + variable_fee_rate va` and the cap `max_fee_rate` first
clamped to be non-negative. -/
theorem c4_total_fee_capped (f : DlmmFeeParams) (h0 : 0 ≤ f.max_fee_rate)
    (h1 : f.max_fee_rate ≤ 1) (va : ℝ) :
    f.total_fee_rate va ≤ f.max_fee_rate ∧
    f.total_fee_rate va =
      min (f.base_fee_rate + f.variable_fee_rate va) (max f.max_fee_rate 0) := by
  refine ⟨?_, rfl⟩
  unfold DlmmFeeParams.total_fee_rate
  calc min (f.base_fee_rate + f.variable_fee_rate va) (max f.max_fee_rate 0)
      ≤ max f.max_fee_rate 0 := min_le_right _ _
    _ = f.max_fee_rate := max_eq_left h0

/-- Witness for C4 at a concrete fee parameter set and volatility value. -/
theorem c4_witness :
    (0:ℝ) ≤ 1/20 ∧ (1/20:ℝ) ≤ 1 ∧
    DlmmFeeParams.total_fee_rate
      { base_factor := 2, bin_step_bps := 10, variable_fee_control := 3,
        max_fee_rate := 1/20 } 1000 ≤ 1/20 :=
  ⟨by norm_num, by norm_num,
    (c4_total_fee_capped
      { base_factor := 2, bin_step_bps := 10, variable_fee_control := 3,
        max_fee_rate := 1/20 } (by norm_num) (by norm_num) 1000).1⟩

/-- Claim C6. For every `LogisticS` configuration and bin index `i`: at or past
the last bin the allocation is exactly `0`; otherwise it is
`max 0 (S(price_of_bin (i+1)) - S(price_of_bin i))` where
`S p = s_mid - ln((p_max - p)/(p - p_min))/k` is evaluated after clamping `p`
into `[p_min + eps, p_max - eps]`, `eps = (p_max - p_min) * 1e-12`;
consequently the allocation is never negative. -/
theorem c6_logistic_delta (c : LogisticS) (i : ℤ) :
    (c.bins ≤ i + 1 → c.delta_x_of_bin i = 0) ∧
    (i + 1 < c.bins → c.delta_x_of_bin i =
      max 0 ((c.s_mid - Real.log ((c.p_max - rustClamp (c.price_of_bin (i+1))
            (c.p_min + (c.p_max - c.p_min) * 1e-12)
            (c.p_max - (c.p_max - c.p_min) * 1e-12)) /
          (rustClamp (c.price_of_bin (i+1)) (c.p_min + (c.p_max - c.p_min) * 1e-12)
            (c.p_max - (c.p_max - c.p_min) * 1e-12) - c.p_min)) / c.k) -
        (c.s_mid - Real.log ((c.p_max - rustClamp (c.price_of_bin i)
            (c.p_min + (c.p_max - c.p_min) * 1e-12)
            (c.p_max - (c.p_max - c.p_min) * 1e-12)) /
          (rustClamp (c.price_of_bin i) (c.p_min + (c.p_max - c.p_min) * 1e-12)
            (c.p_max - (c.p_max - c.p_min) * 1e-12) - c.p_min)) / c.k))) ∧
    0 ≤ c.delta_x_of_bin i := by
  refine ⟨?_, ?_, ?_⟩
  · intro h
    unfold LogisticS.delta_x_of_bin
    rw [if_pos h]
  · intro h
    unfold LogisticS.delta_x_of_bin
    rw [if_neg (not_le.mpr h)]
    rw [max_comm]
    rfl
  · unfold LogisticS.delta_x_of_bin
    split
    · exact le_refl 0
    · exact le_max_right _ _

/-- A concrete logistic configuration for the C6 witness. -/
def logisticW : LogisticS :=
  { grid := { p0 := 1, bin_step_bps := 30000 }, p_min := 0, p_max := 2,
    k := 1, s_mid := 0, bins := 3 }

/-- Witness for C6: at the hard right edge the allocation is exactly `0`,
and allocations are nonnegative. -/
theorem c6_witness :
    logisticW.delta_x_of_bin 5 = 0 ∧ 0 ≤ logisticW.delta_x_of_bin 0 :=
  ⟨(c6_logistic_delta logisticW 5).1 (by norm_num [logisticW]),
   (c6_logistic_delta logisticW 0).2.2⟩

/-- Claim C9 (code bug). `Grid::price_of_bin` computes `p0 * q.powi(i as i32)`:
the `i64` bin index is truncated to `i32`.  At `i = 2^32` on the grid
`p0 = 1`, `bin_step_bps = 10000` (so `q = 2`) the code returns
`p0 * q^0 = 1`, while the documented value `p0 * q^i = 2^(2^32)` exceeds `1`. -/
theorem c9_price_truncates_exponent :
    Grid.price_of_bin { p0 := 1, bin_step_bps := 10000 } (2 ^ 32) = 1 ∧
    1 < (1 : ℝ) * (1 + (10000:ℝ) / 10000) ^ ((2:ℤ) ^ 32) := by
  constructor
  · unfold Grid.price_of_bin
    rw [show wrap32 (2 ^ 32) = 0 by unfold wrap32; norm_num]
    show (1:ℝ) * Grid.q _ ^ (0:ℤ) = 1
    rw [zpow_zero, mul_one]
  · rw [show (1 + (10000:ℝ)/10000) = 2 by norm_num, one_mul]
    exact one_lt_zpow_real one_lt_two (by positivity)

/-- Claim C3. `verify_geometric` returns an error iff some bin in `[0, bins)`
has a negative allocation; in every other case it returns `Ok` with a report,
and no error is produced for any other reason. -/
theorem c3_error_iff_neg_allocation (c : Geometric) (bins : ℤ) :
    ((∃ e, verify_geometric c bins = Except.error e) ↔
      ∃ i : ℤ, 0 ≤ i ∧ i < bins ∧ c.delta_x_of_bin i < 0) ∧
    ((¬ ∃ i : ℤ, 0 ≤ i ∧ i < bins ∧ c.delta_x_of_bin i < 0) →
      ∃ rep, verify_geometric c bins = Except.ok rep) := by
  refine ⟨verify_geometric_error_iff c bins, ?_⟩
  intro h
  cases hv : verify_geometric c bins with
  | error e => exact absurd ((verify_geometric_error_iff c bins).mp ⟨e, hv⟩) h
  | ok rep => exact ⟨rep, rfl⟩

/-- Witness for C3: with no negative allocation in range, the verifier
returns `Ok`. -/
theorem c3_witness : ∃ rep, verify_geometric geomQ4 0 = Except.ok rep :=
  (c3_error_iff_neg_allocation geomQ4 0).2 (by rintro ⟨i, h0, h1, _⟩; omega)

/-- Claim C1 (amended). For every geometric curve and every bin count `n` in
the `i32` range, `s_n_closed n` equals `ΔX_0 · n` when the decay ratio
`r = q^(θ-1)` is within `1e-12` of `1`, and `ΔX_0 · (1 - r^n)/(1 - r)`
otherwise, with `ΔX_0 = r0_quote/p0` and `q = 1 + bin_step_bps/10000`.
(For `n` outside the `i32` range the `n as i32` cast in the source wraps the
exponent, so the formula does not hold there.) -/
theorem c1_s_n_closed_formula (c : Geometric) (n : ℤ)
    (h1 : -2147483648 ≤ n) (h2 : n < 2147483648) :
    c.s_n_closed n =
      if |(1 + c.grid.bin_step_bps / 10000) ^ (c.theta - 1) - 1| < 1e-12 then
        (c.r0_quote / c.grid.p0) * (n : ℝ)
      else
        (c.r0_quote / c.grid.p0) *
          (1 - ((1 + c.grid.bin_step_bps / 10000) ^ (c.theta - 1)) ^ n) /
          (1 - (1 + c.grid.bin_step_bps / 10000) ^ (c.theta - 1)) := by
  unfold Geometric.s_n_closed Geometric.delta_x0 Geometric.r Grid.q
  rw [wrap32_eq_self h1 h2]

/-- Witness for C1 at the concrete curve `geomQ4` and `n = 3`. -/
theorem c1_witness :
    geomQ4.s_n_closed 3 =
      if |(1 + geomQ4.grid.bin_step_bps / 10000) ^ (geomQ4.theta - 1) - 1| < 1e-12 then
        (geomQ4.r0_quote / geomQ4.grid.p0) * ((3:ℤ) : ℝ)
      else
        (geomQ4.r0_quote / geomQ4.grid.p0) *
          (1 - ((1 + geomQ4.grid.bin_step_bps / 10000) ^ (geomQ4.theta - 1)) ^ (3:ℤ)) /
          (1 - (1 + geomQ4.grid.bin_step_bps / 10000) ^ (geomQ4.theta - 1)) :=
  c1_s_n_closed_formula geomQ4 3 (by norm_num) (by norm_num)

/-- Claim C1 (counterexample). At bin count `n = 2^32` (a valid `i64`) the
`n as i32` cast wraps the exponent to `0`: on `geomQ4` (`r = 1/2`,
`ΔX_0 = 1`) `s_n_closed (2^32)` returns `0`, while the claimed formula
`ΔX_0 · (1 - r^n)/(1 - r)` is positive. -/
theorem c1_counterexample :
    geomQ4.s_n_closed (2 ^ 32) ≠
      geomQ4.delta_x0 * (1 - geomQ4.r ^ ((2:ℤ) ^ 32)) / (1 - geomQ4.r) := by
  have hkey : ((1:ℝ)/2) ^ ((2:ℤ) ^ 32) < 1 := by
    rw [show ((1:ℝ)/2) = (2:ℝ)⁻¹ by norm_num, inv_zpow]
    exact inv_lt_one_of_one_lt₀ (one_lt_zpow_real one_lt_two (by positivity))
  have hL : geomQ4.s_n_closed (2 ^ 32) = 0 := by
    unfold Geometric.s_n_closed
    rw [geomQ4_r, geomQ4_delta_x0]
    rw [if_neg half_not_near_one]
    rw [show wrap32 (2 ^ 32) = 0 by unfold wrap32; norm_num]
    rw [zpow_zero]
    norm_num
  have hR : 0 < geomQ4.delta_x0 * (1 - geomQ4.r ^ ((2:ℤ) ^ 32)) / (1 - geomQ4.r) := by
    rw [geomQ4_r, geomQ4_delta_x0]
    apply div_pos
    · rw [one_mul]
      exact sub_pos.mpr hkey
    · norm_num
  rw [hL]
  exact ne_of_lt hR

/-- Claim C7 (amended). For every grid with `p0 > 0` and `bin_step_bps > 0`
(so `q > 1`), the price is strictly increasing on all bin indices whose
successor is still in the `i32` range, and the `monotone_ok` verdict of a
successful verifier run is `true` exactly when the strict increase holds
across all checked bins.  (At `i + 1 = 2^31` the `i as i32` cast wraps and
the price drops, so the unrestricted claim fails.) -/
theorem c7_price_strict_mono (c : Geometric)
    (hp : 0 < c.grid.p0) (hb : 0 < c.grid.bin_step_bps) :
    (∀ i : ℤ, 0 ≤ i → i + 1 < 2147483648 →
      c.price_of_bin i < c.price_of_bin (i + 1)) ∧
    (∀ (bins : ℤ) (rep : Report), verify_geometric c bins = Except.ok rep →
      (rep.monotone_ok = true ↔
        ∀ k : ℕ, (k : ℤ) + 1 < bins →
          c.price_of_bin (k : ℤ) < c.price_of_bin ((k : ℤ) + 1))) := by
  have hq1 : 1 < c.grid.q := by
    have h : 0 < c.grid.bin_step_bps / 10000 := by positivity
    unfold Grid.q
    linarith
  constructor
  · intro i h0 h1
    unfold Geometric.price_of_bin Grid.price_of_bin
    rw [wrap32_eq_self (by omega) (by omega), wrap32_eq_self (by omega) (by omega)]
    exact mul_lt_mul_of_pos_left (zpow_lt_zpow_right₀ hq1 (by omega)) hp
  · intro bins rep hrep
    obtain ⟨_, _, _, _, hmono⟩ := verify_geometric_ok_char c bins rep hrep
    rw [hmono]
    unfold monoUpTo
    constructor
    · intro h k hk
      exact h k (by omega)
    · intro h k hk
      exact h k (by omega)

/-- Witness for C7 at `geomQ4` and the first pair of bins. -/
theorem c7_witness : geomQ4.price_of_bin 0 < geomQ4.price_of_bin (0 + 1) :=
  (c7_price_strict_mono geomQ4 (by norm_num [geomQ4])
    (by norm_num [geomQ4])).1 0 (by norm_num) (by norm_num)

/-- Claim C7 (counterexample). On the grid `p0 = 1`, `bin_step_bps = 10000`
(`q = 2`, so `p0 > 0` and `bin_step_bps > 0` hold) the price *drops* from bin
`2^31 - 1` to bin `2^31`, because the `i as i32` cast wraps `2^31` to
`-2^31`; both indices lie in the verified range `[0, n)` for `n = 2^31 + 1`. -/
theorem c7_counterexample :
    Grid.price_of_bin { p0 := 1, bin_step_bps := 10000 } 2147483648 <
      Grid.price_of_bin { p0 := 1, bin_step_bps := 10000 } 2147483647 := by
  unfold Grid.price_of_bin
  rw [show wrap32 2147483648 = -2147483648 by unfold wrap32; omega]
  rw [show wrap32 2147483647 = 2147483647 by unfold wrap32; omega]
  rw [show Grid.q { p0 := 1, bin_step_bps := 10000 } = 2 by unfold Grid.q; norm_num]
  rw [one_mul, one_mul]
  exact zpow_lt_zpow_right₀ one_lt_two (by norm_num)

/-- Claim C8 (amended). For every `p0 > 0`, `bin_step_bps > 0` and
`ratio > 1`, if the bin count derived from `end_price = p0 · ratio` lies in
the `i32` range then `price_of_bin n ≥ end_price` (no under-shoot).
(For derived counts `≥ 2^31` the `i as i32` cast wraps and the guarantee
fails.) -/
theorem c8_no_undershoot (g : Grid) (ratio : ℝ) (hp : 0 < g.p0)
    (hb : 0 < g.bin_step_bps) (hr : 1 < ratio)
    (hn : compute_bins_from_end_price g (g.p0 * ratio) < 2147483648) :
    g.p0 * ratio ≤ g.price_of_bin (compute_bins_from_end_price g (g.p0 * ratio)) := by
  have hq1 : 1 < g.q := by
    have h : 0 < g.bin_step_bps / 10000 := by positivity
    unfold Grid.q
    linarith
  have hq0 : 0 < g.q := lt_trans one_pos hq1
  have hlq : 0 < Real.log g.q := Real.log_pos hq1
  have hratio : g.p0 * ratio / g.p0 = ratio := by
    field_simp
  have hne : compute_bins_from_end_price g (g.p0 * ratio) =
      max ⌈Real.log ratio / Real.log g.q⌉ 1 := by
    unfold compute_bins_from_end_price
    rw [hratio]
  rw [hne] at hn ⊢
  have hn1 : (1:ℤ) ≤ max ⌈Real.log ratio / Real.log g.q⌉ 1 := le_max_right _ _
  have hnL : Real.log ratio / Real.log g.q ≤
      ((max ⌈Real.log ratio / Real.log g.q⌉ 1 : ℤ) : ℝ) := by
    have h1 : (⌈Real.log ratio / Real.log g.q⌉ : ℤ) ≤
        max ⌈Real.log ratio / Real.log g.q⌉ 1 := le_max_left _ _
    have h2 : ((⌈Real.log ratio / Real.log g.q⌉ : ℤ) : ℝ) ≤
        ((max ⌈Real.log ratio / Real.log g.q⌉ 1 : ℤ) : ℝ) := by exact_mod_cast h1
    linarith [Int.le_ceil (Real.log ratio / Real.log g.q)]
  unfold Grid.price_of_bin
  rw [wrap32_eq_self (by omega) hn]
  have hq_zpow : ratio ≤ g.q ^ (max ⌈Real.log ratio / Real.log g.q⌉ 1 : ℤ) := by
    have h1 : Real.log ratio ≤
        ((max ⌈Real.log ratio / Real.log g.q⌉ 1 : ℤ) : ℝ) * Real.log g.q := by
      calc Real.log ratio = Real.log ratio / Real.log g.q * Real.log g.q := by
            field_simp
        _ ≤ _ := mul_le_mul_of_nonneg_right hnL (le_of_lt hlq)
    calc ratio = Real.exp (Real.log ratio) := (Real.exp_log (lt_trans one_pos hr)).symm
      _ ≤ Real.exp (((max ⌈Real.log ratio / Real.log g.q⌉ 1 : ℤ) : ℝ) * Real.log g.q) :=
          Real.exp_le_exp.mpr h1
      _ = g.q ^ (max ⌈Real.log ratio / Real.log g.q⌉ 1 : ℤ) := by
          rw [← Real.log_zpow, Real.exp_log (zpow_pos hq0 _)]
  exact mul_le_mul_of_nonneg_left hq_zpow (le_of_lt hp)

/-- Witness for C8: `p0 = 1`, `q = 4`, `ratio = 4` derives one bin and
reaches the end price. -/
theorem c8_witness :
    (1:ℝ) * 4 ≤ Grid.price_of_bin { p0 := 1, bin_step_bps := 30000 }
      (compute_bins_from_end_price { p0 := 1, bin_step_bps := 30000 } ((1:ℝ) * 4)) := by
  have hcb : compute_bins_from_end_price { p0 := 1, bin_step_bps := 30000 } ((1:ℝ) * 4) = 1 := by
    unfold compute_bins_from_end_price Grid.q
    norm_num
  exact c8_no_undershoot { p0 := 1, bin_step_bps := 30000 } 4 (by norm_num)
    (by norm_num) (by norm_num) (by rw [hcb]; norm_num)

/-- Claim C8 (counterexample). With `p0 = 1`, `bin_step_bps = 10000` (`q = 2`)
and `ratio = 2^(2^32) > 1`, the inversion formula derives `n = 2^32` bins;
the `i32` cast wraps the exponent to `0`, so the reached price is
`1 < end_price`: the no-under-shoot claim fails. -/
theorem c8_counterexample :
    (1:ℝ) < (2:ℝ) ^ ((2:ℤ) ^ 32) ∧
    Grid.price_of_bin { p0 := 1, bin_step_bps := 10000 }
        (compute_bins_from_end_price { p0 := 1, bin_step_bps := 10000 }
          ((1:ℝ) * (2:ℝ) ^ ((2:ℤ) ^ 32))) <
      (1:ℝ) * (2:ℝ) ^ ((2:ℤ) ^ 32) := by
  have hpow : (1:ℝ) < (2:ℝ) ^ ((2:ℤ) ^ 32) :=
    one_lt_zpow_real one_lt_two (by positivity)
  refine ⟨hpow, ?_⟩
  have hq : Grid.q { p0 := 1, bin_step_bps := 10000 } = 2 := by
    unfold Grid.q
    norm_num
  have hcb : compute_bins_from_end_price { p0 := 1, bin_step_bps := 10000 }
      ((1:ℝ) * (2:ℝ) ^ ((2:ℤ) ^ 32)) = 2 ^ 32 := by
    unfold compute_bins_from_end_price
    rw [hq, one_mul]
    rw [show ((2:ℝ) ^ ((2:ℤ) ^ 32)) / (1:ℝ) = (2:ℝ) ^ ((2:ℤ) ^ 32) by rw [div_one]]
    rw [Real.log_zpow]
    rw [mul_div_assoc, div_self (ne_of_gt (Real.log_pos one_lt_two)), mul_one]
    rw [Int.ceil_intCast]
    rw [max_eq_left (by norm_num : (1:ℤ) ≤ 2 ^ 32)]
  rw [hcb]
  unfold Grid.price_of_bin
  rw [show wrap32 (2 ^ 32) = 0 by unfold wrap32; norm_num]
  rw [hq, zpow_zero, mul_one, one_mul]
  exact hpow

/-- Claim C5 (amended). For every geometric curve on a valid grid (`p0 > 0`,
`bin_step_bps > 0`), every target supply `S` and every bin count `n ≥ 1`
whose `i32`-truncated exponent is nonzero in the generic branch, setting
`r0_quote := solve_r0_from_supply S n` yields `s_n_closed n = S`.
(When `wrap32 n = 0` — e.g. `n = 2^32` — the generic branch divides by
`1 - r^0 = 0` and the round trip fails.) -/
theorem c5_round_trip (c : Geometric) (S : ℝ) (n : ℤ)
    (hp : 0 < c.grid.p0) (hb : 0 < c.grid.bin_step_bps) (hn : 1 ≤ n)
    (hw : |c.r - 1| < 1e-12 ∨ wrap32 n ≠ 0) :
    ({ c with r0_quote := c.solve_r0_from_supply S n } : Geometric).s_n_closed n = S := by
  have hq1 : 1 < c.grid.q := by
    have h : 0 < c.grid.bin_step_bps / 10000 := by positivity
    unfold Grid.q
    linarith
  have hq0 : 0 < c.grid.q := lt_trans one_pos hq1
  have hp' : c.grid.p0 ≠ 0 := ne_of_gt hp
  have hn' : ((n:ℤ) : ℝ) ≠ 0 := by
    exact_mod_cast (by omega : n ≠ 0)
  unfold Geometric.s_n_closed Geometric.delta_x0
  rw [show ({ c with r0_quote := c.solve_r0_from_supply S n } : Geometric).r = c.r from rfl]
  by_cases hbr : |c.r - 1| < 1e-12
  · rw [if_pos hbr]
    show c.solve_r0_from_supply S n / c.grid.p0 * (n : ℝ) = S
    unfold Geometric.solve_r0_from_supply
    rw [if_pos hbr]
    field_simp
    ring
  · rw [if_neg hbr]
    show c.solve_r0_from_supply S n / c.grid.p0 * (1 - c.r ^ wrap32 n) / (1 - c.r) = S
    have hr0 : 0 < c.r := Real.rpow_pos_of_pos hq0 _
    have hr1 : c.r ≠ 1 := by
      intro h
      apply hbr
      rw [h]
      norm_num
    have hwne : wrap32 n ≠ 0 := by
      rcases hw with h | h
      · exact absurd h hbr
      · exact h
    have hrw : c.r ^ wrap32 n ≠ 1 := zpow_ne_one_of_pos hr0 hr1 hwne
    have h1r : (1:ℝ) - c.r ≠ 0 := sub_ne_zero_of_ne (Ne.symm hr1)
    have h1rw : (1:ℝ) - c.r ^ wrap32 n ≠ 0 := sub_ne_zero_of_ne (Ne.symm hrw)
    unfold Geometric.solve_r0_from_supply
    rw [if_neg hbr]
    field_simp
    ring

/-- Witness for C5 at `geomQ4`, `S = 7`, `n = 3`. -/
theorem c5_witness :
    ({ geomQ4 with r0_quote := geomQ4.solve_r0_from_supply 7 3 } : Geometric).s_n_closed 3 = 7 :=
  c5_round_trip geomQ4 7 3 (by norm_num [geomQ4]) (by norm_num [geomQ4])
    (by norm_num) (Or.inr (by unfold wrap32; omega))

/-- Claim C5 (counterexample). On the valid curve `geomQ4` (`r = 1/2`), with
target supply `1` and bin count `n = 2^32 ≥ 1`, the solve divides by
`1 - r^(wrap32 n) = 1 - r^0 = 0`, and the round-tripped closed-form supply
is `0`, not the target `1`. -/
theorem c5_counterexample :
    ({ geomQ4 with r0_quote := geomQ4.solve_r0_from_supply 1 (2 ^ 32) } : Geometric).s_n_closed
      (2 ^ 32) ≠ 1 := by
  have hw : wrap32 (2 ^ 32) = 0 := by
    unfold wrap32
    norm_num
  have h1 : ({ geomQ4 with r0_quote := geomQ4.solve_r0_from_supply 1 (2 ^ 32) } :
      Geometric).s_n_closed (2 ^ 32) = 0 := by
    unfold Geometric.s_n_closed
    rw [show ({ geomQ4 with r0_quote := geomQ4.solve_r0_from_supply 1 (2 ^ 32) } :
        Geometric).r = geomQ4.r from rfl, geomQ4_r]
    rw [if_neg half_not_near_one]
    rw [hw, zpow_zero]
    norm_num
  rw [h1]
  norm_num

/-- Claim C10 (amended). For every geometric curve and every `bins ≤ 0`,
`verify_geometric` returns `Ok` with `supply_sum = 0`, `monotone_ok = true`
and `supply_closed = s_n_closed bins`; when `bins = 0` the closed form is
`0` and the reported relative error is `0`.  (For `bins < 0` the closed form
is generally nonzero, so `supply_closed` and `rel_err_supply` need not be
`0`.) -/
theorem c10_nonpositive_bins (c : Geometric) (bins : ℤ) (hb : bins ≤ 0) :
    ∃ rep, verify_geometric c bins = Except.ok rep ∧
      rep.supply_sum = 0 ∧ rep.monotone_ok = true ∧
      rep.supply_closed = some (c.s_n_closed bins) ∧
      (bins = 0 → c.s_n_closed bins = 0 ∧ rep.rel_err_supply = some 0) := by
  have hnil : idxList bins.toNat = [] := by
    rw [show bins.toNat = 0 by omega]
    rfl
  unfold verify_geometric
  rw [hnil]
  simp only [vgLoop]
  refine ⟨_, rfl, ?_, rfl, rfl, ?_⟩
  · show vgInit.s_sum + vgInit.comp = 0
    norm_num [vgInit]
  · intro h
    subst h
    have hs0 : c.s_n_closed 0 = 0 := by
      unfold Geometric.s_n_closed
      rw [wrap32_eq_self (by norm_num) (by norm_num), zpow_zero]
      split <;> norm_num
    refine ⟨hs0, ?_⟩
    show some (if |c.s_n_closed 0| > 0 then
        |vgInit.s_sum + vgInit.comp - c.s_n_closed 0| / |c.s_n_closed 0| else 0) = some 0
    rw [hs0]
    norm_num

/-- Witness for C10 at `geomQ4` and `bins = 0`. -/
theorem c10_witness :
    ∃ rep, verify_geometric geomQ4 0 = Except.ok rep ∧
      rep.supply_sum = 0 ∧ rep.monotone_ok = true ∧
      rep.supply_closed = some (geomQ4.s_n_closed 0) ∧
      ((0:ℤ) = 0 → geomQ4.s_n_closed 0 = 0 ∧ rep.rel_err_supply = some 0) :=
  c10_nonpositive_bins geomQ4 0 (by norm_num)

/-- Claim C10 (counterexample). At `bins = -1` on `geomQ4` the verifier
returns `Ok` with `supply_closed = some (-2)` and `rel_err_supply = some 1`:
the closed form is *not* zero and the zero-error branch is *not* taken,
contrary to the claim (`-2 ≠ 0` and `1 ≠ 0`). -/
theorem c10_counterexample :
    verify_geometric geomQ4 (-1) =
      Except.ok { bins := -1, supply_sum := 0, supply_closed := some (-2),
                  rel_err_supply := some 1, monotone_ok := true } ∧
    ((-2:ℝ) ≠ 0 ∧ (1:ℝ) ≠ 0) := by
  refine ⟨?_, by norm_num, by norm_num⟩
  have hs : geomQ4.s_n_closed (-1) = -2 := by
    unfold Geometric.s_n_closed
    rw [geomQ4_r, geomQ4_delta_x0]
    rw [if_neg half_not_near_one]
    rw [show wrap32 (-1) = -1 by unfold wrap32; omega]
    rw [zpow_neg_one]
    norm_num
  have hnil : idxList ((-1:ℤ)).toNat = [] := rfl
  unfold verify_geometric
  rw [hnil]
  simp only [vgLoop]
  rw [hs]
  norm_num [vgInit]

/-- Claim C2 (amended). For every valid geometric configuration (`p0 > 0`,
`bin_step_bps > 0`, `θ ∈ (0,1)`, `r0_quote > 0`) and every bin count
`1 ≤ n < 2^31` whose decay ratio is *not* within `1e-12` of `1`, the
verifier succeeds and the reported relative supply error is at most `1e-9`
(in exact arithmetic it is `0`: the compensated sum coincides with the
closed form in the generic branch).  (In the near-`1` branch the closed form
`ΔX_0·n` deviates from the exact sum by roughly `n·|r-1|/2`, which exceeds
`1e-9` relative error for large `n` — see the counterexample.) -/
theorem c2_rel_err_within_tolerance (c : Geometric) (n : ℕ)
    (hp : 0 < c.grid.p0) (hb : 0 < c.grid.bin_step_bps)
    (ht0 : 0 < c.theta) (ht1 : c.theta < 1) (hr0 : 0 < c.r0_quote)
    (hn1 : 1 ≤ n) (hn2 : (n : ℤ) < 2147483648)
    (hbr : ¬ |c.r - 1| < 1e-12) :
    ∃ rep, verify_geometric c (n : ℤ) = Except.ok rep ∧
      ∃ er, rep.rel_err_supply = some er ∧ er ≤ 1e-9 := by
  have hq1 : 1 < c.grid.q := by
    have h : 0 < c.grid.bin_step_bps / 10000 := by positivity
    unfold Grid.q
    linarith
  have hq0 : 0 < c.grid.q := lt_trans one_pos hq1
  have hrpos : 0 < c.r := Real.rpow_pos_of_pos hq0 _
  have hrlt1 : c.r < 1 := Real.rpow_lt_one_of_one_lt_of_neg hq1 (by linarith)
  have hrne1 : c.r ≠ 1 := ne_of_lt hrlt1
  have hd0 : 0 < c.delta_x0 := div_pos hr0 hp
  have hdx : ∀ i : ℤ, 0 ≤ c.delta_x_of_bin i := by
    intro i
    unfold Geometric.delta_x_of_bin
    exact le_of_lt (mul_pos hd0 (zpow_pos hrpos _))
  cases hv : verify_geometric c (n : ℤ) with
  | error e =>
    obtain ⟨i, _, _, hlt⟩ := (verify_geometric_error_iff c (n : ℤ)).mp ⟨e, hv⟩
    exact absurd hlt (not_lt.mpr (hdx i))
  | ok rep =>
    obtain ⟨_, hsum, _, hrel, _⟩ := verify_geometric_ok_char c (n : ℤ) rep hv
    have htn : ((n : ℤ)).toNat = n := Int.toNat_natCast n
    have hsum_eq : rep.supply_sum = c.s_n_closed (n : ℤ) := by
      rw [hsum, htn]
      have hterm : ∀ k ∈ Finset.range n,
          c.delta_x_of_bin (k : ℤ) = c.delta_x0 * c.r ^ k := by
        intro k hk
        rw [Finset.mem_range] at hk
        unfold Geometric.delta_x_of_bin
        rw [wrap32_eq_self (by omega) (by omega), zpow_natCast]
      rw [Finset.sum_congr rfl hterm, ← Finset.mul_sum, geom_sum_eq hrne1]
      unfold Geometric.s_n_closed
      rw [if_neg hbr, wrap32_eq_self (by omega) (by omega), zpow_natCast]
      have hden : c.r - 1 ≠ 0 := sub_ne_zero_of_ne hrne1
      have hden2 : (1:ℝ) - c.r ≠ 0 := sub_ne_zero_of_ne (Ne.symm hrne1)
      field_simp
      ring
    refine ⟨rep, rfl, _, hrel, ?_⟩
    split
    · rw [hsum_eq, sub_self, abs_zero, zero_div]
      norm_num
    · norm_num

/-- Witness for C2 on the valid configuration `geomQ4` with `n = 3`. -/
theorem c2_witness :
    ∃ rep, verify_geometric geomQ4 ((3:ℕ) : ℤ) = Except.ok rep ∧
      ∃ er, rep.rel_err_supply = some er ∧ er ≤ 1e-9 :=
  c2_rel_err_within_tolerance geomQ4 3 (by norm_num [geomQ4]) (by norm_num [geomQ4])
    (by norm_num [geomQ4]) (by norm_num [geomQ4]) (by norm_num [geomQ4])
    (by norm_num) (by norm_num) (by rw [geomQ4_r]; exact half_not_near_one)

/-- Claim C2 (counterexample). The configuration `geomNear1` is valid
(`p0 = 1 > 0`, `bin_step_bps = 1e-8 > 0`, `θ = 1/2 ∈ (0,1)`,
`r0_quote = 1 > 0`) and its decay ratio lies within `1e-12` of `1` without
being `1`; with `n = 10^7 ≥ 1` the closed form used by that branch,
`ΔX_0·n = 10^7`, overstates the exact compensated sum by more than `4`, so
the reported relative supply error exceeds `1e-9` (it is at least `5·10^-7`). -/
theorem c2_counterexample : 1e-9 < relErrOf (verify_geometric geomNear1 10000000) := by
  have hsum_le : ∑ k ∈ Finset.range 10000000, geomNear1.r ^ k ≤ 10000000 - 5 := by
    have hsplit : ∑ k ∈ Finset.range 10000000, geomNear1.r ^ k =
        (∑ k ∈ Finset.Ico 0 5000000, geomNear1.r ^ k) +
        ∑ k ∈ Finset.Ico 5000000 10000000, geomNear1.r ^ k := by
      rw [Finset.range_eq_Ico]
      exact (Finset.sum_Ico_consecutive _ (by norm_num) (by norm_num)).symm
    have h1 : ∑ k ∈ Finset.Ico 0 5000000, geomNear1.r ^ k ≤ 5000000 := by
      calc ∑ k ∈ Finset.Ico 0 5000000, geomNear1.r ^ k
          ≤ ∑ k ∈ Finset.Ico 0 5000000, (1:ℝ) := by
            apply Finset.sum_le_sum
            intro k hk
            exact pow_le_one₀ (le_of_lt geomNear1_r_pos) (le_of_lt geomNear1_r_lt1)
        _ = 5000000 := by simp
    have h2 : ∑ k ∈ Finset.Ico 5000000 10000000, geomNear1.r ^ k ≤
        5000000 * (1 - 1e-6) := by
      calc ∑ k ∈ Finset.Ico 5000000 10000000, geomNear1.r ^ k
          ≤ ∑ k ∈ Finset.Ico 5000000 10000000, geomNear1.r ^ (5000000:ℕ) := by
            apply Finset.sum_le_sum
            intro k hk
            rw [Finset.mem_Ico] at hk
            exact pow_le_pow_of_le_one (le_of_lt geomNear1_r_pos)
              (le_of_lt geomNear1_r_lt1) hk.1
        _ = 5000000 * geomNear1.r ^ (5000000:ℕ) := by
            rw [Finset.sum_const, Nat.card_Ico]
            norm_num
        _ ≤ 5000000 * (1 - 1e-6) := by
            nlinarith [geomNear1_r_pow_le]
    linarith
  cases hv : verify_geometric geomNear1 10000000 with
  | error e =>
    obtain ⟨i, _, _, hlt⟩ := (verify_geometric_error_iff _ _).mp ⟨e, hv⟩
    have hnn : 0 ≤ geomNear1.delta_x_of_bin i := by
      unfold Geometric.delta_x_of_bin
      apply le_of_lt
      apply mul_pos
      · rw [geomNear1_delta_x0]
        norm_num
      · exact zpow_pos geomNear1_r_pos _
    exact absurd hlt (not_lt.mpr hnn)
  | ok rep =>
    obtain ⟨_, hsum, _, hrel, _⟩ := verify_geometric_ok_char _ _ rep hv
    have htn : ((10000000:ℤ)).toNat = 10000000 := rfl
    have hclosed : geomNear1.s_n_closed 10000000 = 10000000 := by
      unfold Geometric.s_n_closed
      rw [if_pos geomNear1_r_branch, geomNear1_delta_x0]
      norm_num
    have hsum_eq : rep.supply_sum = ∑ k ∈ Finset.range 10000000, geomNear1.r ^ k := by
      rw [hsum, htn]
      apply Finset.sum_congr rfl
      intro k hk
      rw [Finset.mem_range] at hk
      unfold Geometric.delta_x_of_bin
      rw [geomNear1_delta_x0, wrap32_eq_self (by omega) (by omega), zpow_natCast, one_mul]
    simp only [relErrOf]
    rw [hrel, Option.getD_some]
    rw [if_pos (by rw [hclosed]; norm_num)]
    rw [hclosed]
    rw [abs_of_nonpos (by rw [hsum_eq]; linarith)]
    rw [show |(10000000:ℝ)| = 10000000 by rw [abs_of_pos]; norm_num]
    rw [lt_div_iff₀ (by norm_num : (0:ℝ) < 10000000)]
    rw [hsum_eq]
    linarith

end BCurve

end
